import Mathlib

set_option maxRecDepth 10000

/-!
Verification of `scripts/generate_embeddings.py`: a one-shot batch pipeline
that loads a JSON corpus of verse records, builds one embedding input string
per record, calls an external embedding model, and writes two artifacts
(a binary array file and a JSON metadata file).

The script is shallowly embedded: pure helpers (`load_scriptures`,
`get_verse_text`) become Lean functions; `main` becomes a function from an
environment (input-file presence and content, plus the embedding model as a
black-box function, per its contract: one vector per input string, in input
order) to a run result recording the exit code, the stdout events, the
directories created and the files written.  The external `json` library is
modelled on the value grammar the corpus uses (strings, arrays, objects);
`numpy`'s `np.array`/`np.save` are modelled by their documented shape/dtype
behaviour.  Vector components are carried as rationals: the pipeline never
inspects them, so only their count matters.
-/

namespace Escrituras

/-- A JSON value, over the grammar the corpus and the script exercise:
strings, arrays and objects (numbers, booleans and null do not occur in the
records the script reads or writes).  An object carries its member list as
parsed; duplicate keys are resolved at lookup time, last occurrence winning,
as Python's `dict` built by `json.load` does. -/
inductive Json where
  | str (s : String)
  | arr (items : List Json)
  | obj (fields : List (String × Json))
deriving Repr

/-- Structural equality test for `Json` (the `deriving` handler does not cover
this nested inductive directly). -/
def Json.beq : Json → Json → Bool
  | .str a, .str b => a == b
  | .arr a, .arr b => listBeq a b
  | .obj a, .obj b => fieldsBeq a b
  | _, _ => false
where
  listBeq : List Json → List Json → Bool
    | [], [] => true
    | x :: xs, y :: ys => Json.beq x y && listBeq xs ys
    | _, _ => false
  fieldsBeq : List (String × Json) → List (String × Json) → Bool
    | [], [] => true
    | (k, v) :: xs, (l, w) :: ys => k == l && Json.beq v w && fieldsBeq xs ys
    | _, _ => false

mutual
theorem Json.beq_iff : ∀ a b : Json, Json.beq a b = true ↔ a = b
  | .str a, b => by
      cases b <;> simp [Json.beq]
  | .arr a, b => by
      cases b <;> simp [Json.beq]
      exact Json.beq_list_iff a _
  | .obj a, b => by
      cases b <;> simp [Json.beq]
      exact Json.beq_fields_iff a _

theorem Json.beq_list_iff : ∀ a b : List Json, Json.beq.listBeq a b = true ↔ a = b
  | [], b => by cases b <;> simp [Json.beq.listBeq]
  | x :: xs, b => by
      cases b <;> simp [Json.beq.listBeq]
      rw [Json.beq_iff x _, Json.beq_list_iff xs _]

theorem Json.beq_fields_iff :
    ∀ a b : List (String × Json), Json.beq.fieldsBeq a b = true ↔ a = b
  | [], b => by cases b <;> simp [Json.beq.fieldsBeq]
  | (k, v) :: xs, b => by
      cases b with
      | nil => simp [Json.beq.fieldsBeq]
      | cons y ys =>
          obtain ⟨l, w⟩ := y
          simp only [Json.beq.fieldsBeq, Bool.and_eq_true, beq_iff_eq, List.cons.injEq,
            Prod.mk.injEq]
          rw [Json.beq_iff v w, Json.beq_fields_iff xs ys]
end

instance : DecidableEq Json := fun a b =>
  decidable_of_iff (Json.beq a b = true) (Json.beq_iff a b)

/-- Python `dict` lookup on a member list with duplicate keys resolved the way
`json.load` builds the dict: a later occurrence of a key overwrites the value,
so lookup returns the value of the last occurrence. -/
def dictGet : List (String × Json) → String → Option Json
  | [], _ => none
  | (k, v) :: rest, key =>
      match dictGet rest key with
      | some w => some w
      | none => if k = key then some v else none

/-- The keys of a Python `dict` built from a member list, in insertion order:
first occurrence fixes the position, duplicates add nothing. -/
def dictKeysFrom (seen : List String) : List (String × Json) → List String
  | [] => []
  | (k, _) :: rest =>
      if seen.contains k then dictKeysFrom seen rest
      else k :: dictKeysFrom (k :: seen) rest

def dictKeys (fields : List (String × Json)) : List String := dictKeysFrom [] fields

/-! ## The `json` library model

`json.load` reads the whole file and decodes exactly one JSON document; any
non-whitespace text after it raises `JSONDecodeError: Extra data`.  The decoder
below follows that contract over the value grammar above, with a fuel counter
(one more than the input length, which the proofs show is never the binding
constraint on the inputs considered) standing in for the library's recursion
handling.  `\uXXXX` escapes are left out along with the scalar literals: the
corpus and the script's own output use neither. -/

/-- JSON whitespace, as `json` skips it: space, tab, line feed, carriage return. -/
def isJsonSpace (c : Char) : Bool := c = ' ' || c = '\t' || c = '\n' || c = '\r'

/-- Drop leading JSON whitespace. -/
def dropSpace : List Char → List Char
  | [] => []
  | c :: cs => if isJsonSpace c then dropSpace cs else c :: cs

/-- Decode a two-character escape: the character standing after the backslash
maps to the escaped character, or to `none` when the escape is invalid. -/
def junesc (c : Char) : Option Char :=
  if c = '"' then some '"'
  else if c = '\\' then some '\\'
  else if c = '/' then some '/'
  else if c = 'n' then some '\n'
  else if c = 't' then some '\t'
  else if c = 'r' then some '\r'
  else if c = 'b' then some (Char.ofNat 8)
  else if c = 'f' then some (Char.ofNat 12)
  else none

/-- Decode a string body after its opening quote, returning the decoded
characters and the input after the closing quote. -/
def strBody : List Char → Except String (List Char × List Char)
  | [] => .error "Unterminated string"
  | c :: cs =>
      if c = '"' then .ok ([], cs)
      else if c = '\\' then
        match cs with
        | [] => .error "Unterminated string"
        | e :: cs2 =>
            match junesc e with
            | some d => (strBody cs2).map (fun p => (d :: p.1, p.2))
            | none => .error "Invalid escape"
      else (strBody cs).map (fun p => (c :: p.1, p.2))

mutual
/-- Decode one JSON value, leaving the rest of the input. -/
def pVal : Nat → List Char → Except String (Json × List Char)
  | 0, _ => .error "Recursion limit"
  | fuel + 1, cs =>
      match dropSpace cs with
      | [] => .error "Expecting value"
      | c :: cs1 =>
          if c = '"' then (strBody cs1).map (fun p => (Json.str (String.mk p.1), p.2))
          else if c = '[' then
            match dropSpace cs1 with
            | [] => .error "Expecting value"
            | d :: cs2 =>
                if d = ']' then .ok (.arr [], cs2)
                else (pItems fuel (d :: cs2)).map (fun p => (Json.arr p.1, p.2))
          else if c = '\x7b' then
            match dropSpace cs1 with
            | [] => .error "Expecting property name"
            | d :: cs2 =>
                if d = '\x7d' then .ok (.obj [], cs2)
                else (pFields fuel (d :: cs2)).map (fun p => (Json.obj p.1, p.2))
          else .error "Expecting value"

/-- Decode the elements of a non-empty array, up to and including the `]`. -/
def pItems : Nat → List Char → Except String (List Json × List Char)
  | 0, _ => .error "Recursion limit"
  | fuel + 1, cs => do
      let (v, r) ← pVal fuel cs
      match dropSpace r with
      | ',' :: r2 => (pItems fuel r2).map (fun p => (v :: p.1, p.2))
      | ']' :: r2 => .ok ([v], r2)
      | _ => .error "Expecting comma"

/-- Decode the members of a non-empty object, up to and including the brace
that closes it. -/
def pFields : Nat → List Char → Except String (List (String × Json) × List Char)
  | 0, _ => .error "Recursion limit"
  | fuel + 1, cs =>
      match dropSpace cs with
      | '"' :: cs1 => do
          let (k, r) ← strBody cs1
          match dropSpace r with
          | ':' :: r2 => do
              let (v, r3) ← pVal fuel r2
              match dropSpace r3 with
              | ',' :: r4 => (pFields fuel r4).map (fun p => ((String.mk k, v) :: p.1, p.2))
              | '\x7d' :: r4 => .ok ([(String.mk k, v)], r4)
              | _ => .error "Expecting comma"
          | _ => .error "Expecting colon"
      | _ => .error "Expecting property name"
end

/-- The `json.loads` contract: decode one document, then require that only
whitespace remains (otherwise `Extra data`). -/
def json_loads (s : String) : Except String Json := do
  let cs := s.toList
  let (v, r) ← pVal (cs.length + 1) cs
  match dropSpace r with
  | [] => .ok v
  | _ => .error "Extra data"

/-! ### `json.dump`

With default arguments `json.dump` separates array items and object members
with a comma and a space and keys from values with a colon and a space, and
escapes the quote, the backslash and the common control characters in
strings.  (`ensure_ascii` hex escapes for other code points are outside the
modelled subset; the theorems that invert rendering assume none are needed.) -/

/-- Escape one character of a string being dumped. -/
def jesc (c : Char) : List Char :=
  if c = '"' then ['\\', '"']
  else if c = '\\' then ['\\', '\\']
  else if c = '\n' then ['\\', 'n']
  else if c = '\t' then ['\\', 't']
  else if c = '\r' then ['\\', 'r']
  else if c = Char.ofNat 8 then ['\\', 'b']
  else if c = Char.ofNat 12 then ['\\', 'f']
  else [c]

/-- Render a string with its quotes and escapes. -/
def quoteStr (s : String) : List Char := '"' :: (s.toList.flatMap jesc ++ ['"'])

mutual
/-- Render a value the way `json.dump` writes it with default arguments. -/
def dumpJson : Json → List Char
  | .str s => quoteStr s
  | .arr items => '[' :: (dumpItems items ++ [']'])
  | .obj fields => '\x7b' :: (dumpFields fields ++ ['\x7d'])

def dumpItems : List Json → List Char
  | [] => []
  | [v] => dumpJson v
  | v :: w :: rest => dumpJson v ++ ',' :: ' ' :: dumpItems (w :: rest)

def dumpFields : List (String × Json) → List Char
  | [] => []
  | [(k, v)] => quoteStr k ++ ':' :: ' ' :: dumpJson v
  | (k, v) :: f :: rest => quoteStr k ++ ':' :: ' ' :: dumpJson v ++ ',' :: ' ' :: dumpFields (f :: rest)
end

/-- The text `json.dump` writes for a value. -/
def dumps (v : Json) : String := String.mk (dumpJson v)

/-! ## Configuration constants of the script -/

def MODEL : String := "BAAI/bge-small-en-v1.5"
def DIMENSION : Nat := 384
/-- Batch-size hint handed to the embedding library; per its contract it has
no effect on the values or order of the produced vectors. -/
def BATCH_SIZE : Nat := 256
def SCRIPTURE_PATH : String := "lds-scriptures-2020.12.08/json/lds-scriptures-json.txt"
def OUTPUT_DIR : String := "data"

/-- An apostrophe, as a string. -/
def sq : String := String.singleton (Char.ofNat 39)

def embeddings_path : String := OUTPUT_DIR ++ "/scripture_embeddings.npy"
def metadata_path : String := OUTPUT_DIR ++ "/scripture_metadata.json"

/-! ## Helper functions of the script -/

mutual
/-- Python `repr` of a decoded value, used when an f-string interpolates a
non-string (single-quoted strings; escaping inside them is not modelled, as
no claim reaches this case). -/
def pyRepr : Json → String
  | .str s => sq ++ s ++ sq
  | .arr items => "[" ++ pyReprItems items ++ "]"
  | .obj fields => "\x7b" ++ pyReprFields fields ++ "\x7d"

def pyReprItems : List Json → String
  | [] => ""
  | [v] => pyRepr v
  | v :: w :: rest => pyRepr v ++ ", " ++ pyReprItems (w :: rest)

def pyReprFields : List (String × Json) → String
  | [] => ""
  | [(k, v)] => sq ++ k ++ sq ++ ": " ++ pyRepr v
  | (k, v) :: f :: rest => sq ++ k ++ sq ++ ": " ++ pyRepr v ++ ", " ++ pyReprFields (f :: rest)
end

/-- Interpolation of one value into an f-string. -/
def pyStr : Json → String
  | .str s => s
  | v => pyRepr v

/-- `load_scriptures`: opens the corpus file and decodes it with `json.load`.
The file handle is abstracted away: the caller passes the file's content. -/
def load_scriptures (content : String) : Except String Json :=
  json_loads content

/-- `get_verse_text`: the text to embed for one record,
`f"{scripture['verse_title']}: {scripture['scripture_text']}"`.
Indexing a non-dict raises `TypeError`; a missing key raises `KeyError`;
both surface as uncaught exceptions. -/
def get_verse_text (scripture : Json) : Except String String :=
  match scripture with
  | .obj fields =>
      match dictGet fields "verse_title", dictGet fields "scripture_text" with
      | some t, some x => .ok (pyStr t ++ ": " ++ pyStr x)
      | _, _ => .error "KeyError"
  | _ => .error "TypeError"

/-- Iterating a decoded JSON value the way `for s in scriptures` does:
an array yields its items, a dict its keys (insertion order), a string its
characters. -/
def pyItems : Json → List Json
  | .arr items => items
  | .obj fields => (dictKeys fields).map Json.str
  | .str s => s.toList.map (fun c => Json.str (String.mk [c]))

/-- `texts = [get_verse_text(s) for s in scriptures]`: the first raised
exception aborts the comprehension. -/
def buildTexts (scriptures : List Json) : Except String (List String) :=
  scriptures.mapM get_verse_text

/-- One metadata entry, `{"verse_title": s["verse_title"]}`. -/
def metaOf : Json → Except String Json
  | .obj fields =>
      match dictGet fields "verse_title" with
      | some t => .ok (Json.obj [("verse_title", t)])
      | none => .error "KeyError"
  | _ => .error "TypeError"

/-- `metadata = [{"verse_title": s["verse_title"]} for s in scriptures]`. -/
def buildMetadata (scriptures : List Json) : Except String (List Json) :=
  scriptures.mapM metaOf

/-! ## The `numpy` model -/

/-- The saved array artifact: its shape, element type and rows. -/
structure NpyArray where
  shape : List Nat
  dtype : String
  rows : List (List ℚ)
deriving Repr, DecidableEq

/-- `np.array(rows, dtype=np.float32)` shape inference: an empty list gives a
one-dimensional empty array of shape `(0,)`; a list of equal-length rows gives
shape `(n, d)`; ragged rows raise `ValueError`.  Components are carried as the
rationals the embedder handed over; the script never reads them. -/
def np_array (rowsIn : List (List ℚ)) : Except String NpyArray :=
  match rowsIn with
  | [] => .ok ⟨[0], "float32", []⟩
  | r :: rest =>
      if rest.all (fun v => v.length = r.length) then
        .ok ⟨[(r :: rest).length, r.length], "float32", r :: rest⟩
      else .error "ValueError"

/-- Byte size of an `.npy` file as `np.save` lays it out: the 128-byte padded
version-1 header, then 4 bytes per `float32` element. -/
def npySize (a : NpyArray) : Nat := 128 + 4 * a.shape.prod

/-! ## The run model of `main` -/

/-- One observable stdout emission.  The progress bar line is abstracted to
the pair it displays (items done, total); the two size reports to the
megabyte figure they print (held exactly as a rational; the `:.1f` float
formatting is display only). -/
inductive OutEvent where
  | line (s : String)
  | progress (done total : Nat)
  | saved (path : String) (sizeMB : ℚ)
  | doneTotal (sizeMB : ℚ)
deriving Repr, DecidableEq

/-- A file written under the output directory: the embeddings array or the
metadata document (whose on-disk bytes are `dumps` of the value). -/
inductive FileData where
  | npy (a : NpyArray)
  | jsonFile (v : Json)
deriving Repr, DecidableEq

/-- Byte size of a written file, as `os.path.getsize` reports it. -/
def fileSizeBytes : FileData → Nat
  | .npy a => npySize a
  | .jsonFile v => (dumps v).utf8ByteSize

/-- Bytes-to-megabytes conversion the script applies before printing. -/
def toMB (bytes : Nat) : ℚ := (bytes : ℚ) / (1024 * 1024)

/-- The world the script runs against: whether the corpus file exists and
what it holds, plus the embedding model as a black box. Per the Embedder
contract the model maps each input string to one vector (or raises),
independent of batching. -/
structure Env where
  scriptureFileExists : Bool
  scriptureFileContent : String
  embed : String → Except String (List ℚ)

/-- What a completed process left behind: its exit code, whether it ended in
an uncaught exception, the stdout events in order, the directories created
and the files written (path, content), in creation order. -/
structure RunResult where
  exitCode : Nat
  crashed : Bool
  stdout : List OutEvent
  dirsCreated : List String
  files : List (String × FileData)
deriving Repr, DecidableEq

/-- The embedding loop over `model.embed(texts, batch_size=BATCH_SIZE)`:
collects the vectors, and after the i-th item (1-based) emits a progress
event when `(i + 1) % 1000 == 0 or i + 1 == total`.  A raised exception stops
the loop; vectors and events up to that point stand.  Returns the vectors,
the progress events as (done, total) pairs, and the exception if one was
raised. -/
def embedLoop (e : String → Except String (List ℚ)) (total : Nat) :
    List String → Nat → List (List ℚ) × List (Nat × Nat) × Option String
  | [], _ => ([], [], none)
  | t :: ts, i =>
      match e t with
      | .error msg => ([], [], some msg)
      | .ok v =>
          let rec45 := embedLoop e total ts (i + 1)
          let here := if (i + 1) % 1000 = 0 ∨ i + 1 = total then [(i + 1, total)] else []
          (v :: rec45.1, here ++ rec45.2.1, rec45.2.2)

/-- A run that ended in an uncaught exception before anything was written. -/
def crashedRun (out : List OutEvent) : RunResult :=
  { exitCode := 1, crashed := true, stdout := out, dirsCreated := [], files := [] }

/-- Stdout of the missing-file exit. -/
def outMissing : List OutEvent :=
  [.line ("Error: Scripture file not found: " ++ SCRIPTURE_PATH),
   .line ("Make sure you" ++ sq ++ "re running from the project root directory")]

/-- Stdout up to and including the loading announcement. -/
def outLoading : List OutEvent :=
  [.line ("Loading scriptures from " ++ SCRIPTURE_PATH ++ "...")]

/-- Stdout up to and including the model-initialization announcements. -/
def outLoaded (nLoaded : Nat) : List OutEvent :=
  outLoading ++
    [.line ("Loaded " ++ toString nLoaded ++ " verses"),
     .line ("\nInitializing " ++ MODEL ++ "..."),
     .line "(First run will download the model, ~33MB)"]

/-- Stdout up to and including the pre-loop announcements. -/
def outGen (nLoaded nTotal : Nat) : List OutEvent :=
  outLoaded nLoaded ++
    [.line ("\nGenerating embeddings for " ++ toString nTotal ++ " verses..."),
     .line ("Dimensions: " ++ toString DIMENSION),
     .line ""]

/-- The `main` function of the script, step for step: existence check, load,
text building, embedding loop, `np.array`, `os.makedirs`, `np.save`, metadata
build, `json.dump`, and the size reports — with `sys.exit(1)` on a missing
corpus file and uncaught exceptions (exit code 1) anywhere a library call
raises. -/
def mainRun (env : Env) : RunResult :=
  if env.scriptureFileExists = false then
    { exitCode := 1, crashed := false, stdout := outMissing,
      dirsCreated := [], files := [] }
  else
    match load_scriptures env.scriptureFileContent with
    | .error _ => crashedRun outLoading
    | .ok doc =>
        let scriptures := pyItems doc
        match buildTexts scriptures with
        | .error _ => crashedRun (outLoaded scriptures.length)
        | .ok texts =>
            let loopRes := embedLoop env.embed texts.length texts 0
            let outP := outGen scriptures.length texts.length ++
              loopRes.2.1.map (fun p => OutEvent.progress p.1 p.2)
            match loopRes.2.2 with
            | some _ => crashedRun outP
            | none =>
                match np_array loopRes.1 with
                | .error _ => crashedRun (outP ++ [OutEvent.line ""])
                | .ok arr =>
                    let embFile := FileData.npy arr
                    let szE := fileSizeBytes embFile
                    let outS := outP ++
                      [OutEvent.line "",
                       OutEvent.line ("\nEmbeddings shape: " ++ toString arr.shape),
                       OutEvent.saved embeddings_path (toMB szE)]
                    match buildMetadata scriptures with
                    | .error _ =>
                        { exitCode := 1, crashed := true, stdout := outS,
                          dirsCreated := [OUTPUT_DIR],
                          files := [(embeddings_path, embFile)] }
                    | .ok metas =>
                        let metaFile := FileData.jsonFile (Json.arr metas)
                        let szM := fileSizeBytes metaFile
                        { exitCode := 0, crashed := false,
                          stdout := outS ++
                            [OutEvent.saved metadata_path (toMB szM),
                             OutEvent.doneTotal (toMB szE + toMB szM)],
                          dirsCreated := [OUTPUT_DIR],
                          files := [(embeddings_path, embFile),
                                    (metadata_path, metaFile)] }

/-! ## Spec-side definitions and observation helpers -/

/-- The milestone item counts at which the spec says progress is emitted for
`n` inputs: every 1000th item and the final item, in order. -/
def milestones (n : Nat) : List Nat :=
  ((List.range n).map (· + 1)).filter (fun k => k % 1000 == 0 || k == n)

/-- The progress emissions of a run, in order, as (done, total) pairs. -/
def progressReports (r : RunResult) : List (Nat × Nat) :=
  r.stdout.filterMap fun ev => match ev with | .progress d t => some (d, t) | _ => none

/-- The per-artifact size reports of a run, in order. -/
def sizeReports (r : RunResult) : List (String × ℚ) :=
  r.stdout.filterMap fun ev => match ev with | .saved p m => some (p, m) | _ => none

/-- The total-size reports of a run, in order. -/
def totalReports (r : RunResult) : List ℚ :=
  r.stdout.filterMap fun ev => match ev with | .doneTotal m => some m | _ => none

/-- The bytes a written artifact holds when it is the metadata document. -/
def metadataBytes : FileData → Option String
  | .jsonFile v => some (dumps v)
  | .npy _ => none

/-- A verse record as a JSON object, from its title and body. -/
def verseJson (r : String × String) : Json :=
  .obj [("verse_title", .str r.1), ("scripture_text", .str r.2)]

/-- An array-form corpus document holding the given records in order. -/
def corpusJson (records : List (String × String)) : Json :=
  .arr (records.map verseJson)

/-- A newline-delimited corpus file: one JSON object per line. -/
def ndjsonL : List (String × String) → List Char
  | [] => []
  | [r] => dumpJson (verseJson r)
  | r :: s :: rest => dumpJson (verseJson r) ++ '\n' :: ndjsonL (s :: rest)

/-- A string no character of which needs a JSON escape, so its dump is the
string itself between quotes. -/
def plainStr (s : String) : Prop := ∀ c ∈ s.toList, jesc c = [c]

instance (s : String) : Decidable (plainStr s) :=
  inferInstanceAs (Decidable (∀ c ∈ s.toList, jesc c = [c]))

/-- The stdout of a successful run, assembled from its parameters. -/
def okStdout (nLoaded nTotal : Nat) (evs : List (Nat × Nat)) (shape : List Nat)
    (szE szM : ℚ) : List OutEvent :=
  outGen nLoaded nTotal
  ++ evs.map (fun p => OutEvent.progress p.1 p.2)
  ++ [.line "",
      .line ("\nEmbeddings shape: " ++ toString shape),
      .saved embeddings_path szE,
      .saved metadata_path szM,
      .doneTotal (szE + szM)]

/-! ## Concrete environments used as evaluation inputs -/

/-- A world without the corpus file. -/
def envMissing : Env := ⟨false, "", fun _ => .ok []⟩

/-- A world whose corpus file holds the empty array; its embedder honours
the 384-component contract on every input, though nothing is embedded. -/
def envEmptyCorpus : Env := ⟨true, "[]", fun _ => .ok (List.replicate 384 0)⟩

/-- A single-record corpus document. -/
def oneRecordDoc : Json := corpusJson [("Genesis 1:1", "In the beginning")]

/-- A world with a one-verse corpus and an embedder producing 384-component
zero vectors. -/
def envOneVerse : Env := ⟨true, dumps oneRecordDoc, fun _ => .ok (List.replicate 384 0)⟩

/-- The same corpus under a different embedder (one-component vectors). -/
def envOneVerseAlt : Env := ⟨true, dumps oneRecordDoc, fun _ => .ok [1]⟩

/-- A world whose corpus file holds an array with a non-object record, so
text building raises. -/
def envBadRecord : Env := ⟨true, "[\"a\"]", fun _ => .ok []⟩

/-- A two-line newline-delimited corpus file. -/
def ndjsonTwo : String :=
  String.mk (ndjsonL [("Genesis 1:1", "In the beginning"), ("Genesis 1:2", "And the earth")])

/-! ## Helper lemmas -/

/-- A list comprehension that completes produces one output per input. -/
theorem exceptMapM_ok_length {α β ε : Type} (f : α → Except ε β) :
    ∀ (l : List α) (ys : List β), l.mapM f = .ok ys → ys.length = l.length := by
  intro l
  induction l with
  | nil => intro ys h; simp only [List.mapM_nil, pure, Except.pure] at h; cases h; rfl
  | cons a l ih =>
      intro ys h
      simp only [List.mapM_cons] at h
      cases hfa : f a with
      | error e => rw [hfa] at h; simp [Bind.bind, Except.bind] at h
      | ok b =>
          rw [hfa] at h
          cases hl : l.mapM f with
          | error e =>
              rw [hl] at h; simp [Bind.bind, Except.bind, pure, Except.pure] at h
          | ok bs =>
              rw [hl] at h
              simp only [Bind.bind, Except.bind, pure, Except.pure, Except.ok.injEq] at h
              subst h
              simp [ih bs hl]

/-- If the text comprehension completed, every record is an object holding
both fields, so the later metadata comprehension completes as well. -/
theorem buildTexts_ok_buildMetadata :
    ∀ (l : List Json) (ts : List String), buildTexts l = .ok ts →
      ∃ ms, buildMetadata l = .ok ms := by
  intro l
  induction l with
  | nil => intro ts _; exact ⟨[], rfl⟩
  | cons s l ih =>
      intro ts h
      simp only [buildTexts, List.mapM_cons] at h
      cases hs : get_verse_text s with
      | error e => rw [hs] at h; simp [Bind.bind, Except.bind] at h
      | ok t =>
          rw [hs] at h
          cases hl : l.mapM get_verse_text with
          | error e => rw [hl] at h; simp [Bind.bind, Except.bind] at h
          | ok ts' =>
              obtain ⟨ms, hms⟩ := ih ts' hl
              obtain ⟨fields, hf, v, hv⟩ :
                  ∃ fields, s = Json.obj fields ∧
                    ∃ v, dictGet fields "verse_title" = some v := by
                cases s with
                | obj fields =>
                    refine ⟨fields, rfl, ?_⟩
                    cases hvt : dictGet fields "verse_title" with
                    | none => simp [get_verse_text, hvt] at hs
                    | some v => exact ⟨v, rfl⟩
                | str s => simp [get_verse_text] at hs
                | arr items => simp [get_verse_text] at hs
              subst hf
              refine ⟨Json.obj [("verse_title", v)] :: ms, ?_⟩
              simp only [buildMetadata, List.mapM_cons] at hms ⊢
              simp only [metaOf, hv, hms]
              rfl

/-- Entry i of the metadata comprehension holds exactly the `verse_title`
value of record i. -/
theorem buildMetadata_align :
    ∀ (l : List Json) (ms : List Json), buildMetadata l = .ok ms →
      ∀ i, i < l.length →
        ∃ fields v, l[i]? = some (Json.obj fields) ∧
          dictGet fields "verse_title" = some v ∧
          ms[i]? = some (Json.obj [("verse_title", v)]) := by
  intro l
  induction l with
  | nil => intro ms _ i hi; simp at hi
  | cons s l ih =>
      intro ms h i hi
      simp only [buildMetadata, List.mapM_cons] at h
      cases s with
      | str s => simp [metaOf, Bind.bind, Except.bind] at h
      | arr items => simp [metaOf, Bind.bind, Except.bind] at h
      | obj fields =>
          cases hvt : dictGet fields "verse_title" with
          | none => simp [metaOf, hvt, Bind.bind, Except.bind] at h
          | some v =>
              simp only [metaOf, hvt] at h
              cases hl : buildMetadata l with
              | error e =>
                  simp only [buildMetadata] at hl
                  rw [hl] at h; simp [Bind.bind, Except.bind] at h
              | ok ms' =>
                  simp only [buildMetadata] at hl
                  rw [hl] at h
                  simp only [Bind.bind, Except.bind, pure, Except.pure,
                    Except.ok.injEq] at h
                  subst h
                  cases i with
                  | zero => exact ⟨fields, v, by simp, hvt, by simp⟩
                  | succ j =>
                      have hj : j < l.length := by simpa using hi
                      obtain ⟨fs, w, h1, h2, h3⟩ := ih ms' hl j hj
                      exact ⟨fs, w, by simpa using h1, h2, by simpa using h3⟩

/-- An embedding loop that raised nothing produced one vector per text. -/
theorem embedLoop_ok_length (e : String → Except String (List ℚ)) (total : Nat) :
    ∀ (ts : List String) (i : Nat) (embs : List (List ℚ)) (evs : List (Nat × Nat)),
      embedLoop e total ts i = (embs, evs, none) → embs.length = ts.length := by
  intro ts
  induction ts with
  | nil => intro i embs evs h; cases h; rfl
  | cons t ts ih =>
      intro i embs evs h
      simp only [embedLoop] at h
      cases he : e t with
      | error msg => rw [he] at h; cases h
      | ok v =>
          rw [he] at h
          simp only [Prod.mk.injEq] at h
          obtain ⟨h1, h2, h3⟩ := h
          subst h1
          have := ih (i + 1) _ _ (by
            rw [show embedLoop e total ts (i + 1)
                = ((embedLoop e total ts (i + 1)).1,
                   (embedLoop e total ts (i + 1)).2.1,
                   (embedLoop e total ts (i + 1)).2.2) from rfl, h3])
          simp [← this]

/-- An embedding loop that raised nothing emitted its progress events exactly
at the milestone item counts, in order. -/
theorem embedLoop_events (e : String → Except String (List ℚ)) (total : Nat) :
    ∀ (ts : List String) (i : Nat) (embs : List (List ℚ)) (evs : List (Nat × Nat)),
      embedLoop e total ts i = (embs, evs, none) →
      evs = (((List.range ts.length).map (fun j => i + j + 1)).filter
               (fun k => k % 1000 == 0 || k == total)).map (fun k => (k, total)) := by
  intro ts
  induction ts with
  | nil => intro i embs evs h; cases h; rfl
  | cons t ts ih =>
      intro i embs evs h
      simp only [embedLoop] at h
      cases he : e t with
      | error msg => rw [he] at h; cases h
      | ok v =>
          rw [he] at h
          simp only [Prod.mk.injEq] at h
          obtain ⟨h1, h2, h3⟩ := h
          have hrec := ih (i + 1) _ _ (by
            rw [show embedLoop e total ts (i + 1)
                = ((embedLoop e total ts (i + 1)).1,
                   (embedLoop e total ts (i + 1)).2.1,
                   (embedLoop e total ts (i + 1)).2.2) from rfl, h3])
          subst h2
          rw [hrec]
          simp only [List.length_cons, List.range_succ_eq_map, List.map_cons,
            List.map_map, Nat.add_zero, List.filter_cons]
          have hcomp : ((fun j => i + j + 1) ∘ Nat.succ) = fun j => (i + 1) + j + 1 := by
            funext j
            simp only [Function.comp]
            omega
          rw [hcomp]
          by_cases hc : (i + 1) % 1000 = 0 ∨ i + 1 = total
          · have hcb : ((i + 1) % 1000 == 0 || (i + 1) == total) = true := by
              rcases hc with hc | hc <;> simp [hc]
            simp [hc, hcb]
          · have hcb : ((i + 1) % 1000 == 0 || (i + 1) == total) = false := by
              push_neg at hc
              simp [hc.1, hc.2]
            simp [hc, hcb]

/-! ## Characterizations of `mainRun`, one per control-flow branch -/

/-- When the corpus file is missing, `main` reports and exits 1 having
touched nothing. -/
theorem mainRun_missing (env : Env) (hex : env.scriptureFileExists = false) :
    mainRun env =
      { exitCode := 1, crashed := false, stdout := outMissing,
        dirsCreated := [], files := [] } := by
  simp [mainRun, hex]

/-- A decode failure of the corpus crashes the run after the loading line. -/
theorem mainRun_loadErr (env : Env) (e : String)
    (hex : env.scriptureFileExists = true)
    (hload : load_scriptures env.scriptureFileContent = .error e) :
    mainRun env = crashedRun outLoading := by
  simp [mainRun, hex, hload]

/-- A raise while building the texts crashes the run after the
initialization lines. -/
theorem mainRun_textsErr (env : Env) (doc : Json) (e : String)
    (hex : env.scriptureFileExists = true)
    (hload : load_scriptures env.scriptureFileContent = .ok doc)
    (htexts : buildTexts (pyItems doc) = .error e) :
    mainRun env = crashedRun (outLoaded (pyItems doc).length) := by
  simp [mainRun, hex, hload, htexts]

/-- A raise inside the embedding loop crashes the run after the progress
events emitted so far. -/
theorem mainRun_loopErr (env : Env) (doc : Json) (texts : List String)
    (embs : List (List ℚ)) (evs : List (Nat × Nat)) (msg : String)
    (hex : env.scriptureFileExists = true)
    (hload : load_scriptures env.scriptureFileContent = .ok doc)
    (htexts : buildTexts (pyItems doc) = .ok texts)
    (hloop : embedLoop env.embed texts.length texts 0 = (embs, evs, some msg)) :
    mainRun env = crashedRun (outGen (pyItems doc).length texts.length ++
      evs.map (fun p => OutEvent.progress p.1 p.2)) := by
  simp [mainRun, hex, hload, htexts, hloop]

/-- A `ValueError` from `np.array` (ragged vectors) crashes the run before
any write. -/
theorem mainRun_arrErr (env : Env) (doc : Json) (texts : List String)
    (embs : List (List ℚ)) (evs : List (Nat × Nat)) (e : String)
    (hex : env.scriptureFileExists = true)
    (hload : load_scriptures env.scriptureFileContent = .ok doc)
    (htexts : buildTexts (pyItems doc) = .ok texts)
    (hloop : embedLoop env.embed texts.length texts 0 = (embs, evs, none))
    (harr : np_array embs = .error e) :
    mainRun env = crashedRun (outGen (pyItems doc).length texts.length ++
      evs.map (fun p => OutEvent.progress p.1 p.2) ++ [OutEvent.line ""]) := by
  simp [mainRun, hex, hload, htexts, hloop, harr, List.append_assoc]

/-- A raise while building the metadata (impossible when the texts built,
but a branch of the code) crashes the run after the embeddings were saved. -/
theorem mainRun_metaErr (env : Env) (doc : Json) (texts : List String)
    (embs : List (List ℚ)) (evs : List (Nat × Nat)) (arr : NpyArray) (e : String)
    (hex : env.scriptureFileExists = true)
    (hload : load_scriptures env.scriptureFileContent = .ok doc)
    (htexts : buildTexts (pyItems doc) = .ok texts)
    (hloop : embedLoop env.embed texts.length texts 0 = (embs, evs, none))
    (harr : np_array embs = .ok arr)
    (hmeta : buildMetadata (pyItems doc) = .error e) :
    (mainRun env).crashed = true ∧
      (mainRun env).files = [(embeddings_path, .npy arr)] := by
  simp [mainRun, hex, hload, htexts, hloop, harr, hmeta]

/-- The success path of `main`, characterized: when the file exists, loading,
text building, the embedding loop, `np.array` and the metadata build all
succeed, the run exits 0 having created the output directory and written the
two artifacts, with the stated stdout. -/
theorem mainRun_ok (env : Env) (doc : Json) (texts : List String)
    (embs : List (List ℚ)) (evs : List (Nat × Nat)) (arr : NpyArray) (metas : List Json)
    (hex : env.scriptureFileExists = true)
    (hload : load_scriptures env.scriptureFileContent = .ok doc)
    (htexts : buildTexts (pyItems doc) = .ok texts)
    (hloop : embedLoop env.embed texts.length texts 0 = (embs, evs, none))
    (harr : np_array embs = .ok arr)
    (hmeta : buildMetadata (pyItems doc) = .ok metas) :
    mainRun env =
      { exitCode := 0, crashed := false,
        stdout := okStdout (pyItems doc).length texts.length evs arr.shape
          (toMB (npySize arr)) (toMB ((dumps (Json.arr metas)).utf8ByteSize)),
        dirsCreated := [OUTPUT_DIR],
        files := [(embeddings_path, .npy arr),
                  (metadata_path, .jsonFile (.arr metas))] } := by
  simp [mainRun, hex, hload, htexts, hloop, harr, hmeta, okStdout, fileSizeBytes,
    List.append_assoc]

/-- Case analysis over the stages of a run, restated as one disjunction so
downstream proofs can avoid splitting on `mainRun` directly. -/
theorem mainRun_cases (env : Env) :
    (env.scriptureFileExists = false) ∨
    (∃ e, env.scriptureFileExists = true ∧
      load_scriptures env.scriptureFileContent = .error e) ∨
    (∃ doc e, env.scriptureFileExists = true ∧
      load_scriptures env.scriptureFileContent = .ok doc ∧
      buildTexts (pyItems doc) = .error e) ∨
    (∃ doc texts embs evs msg, env.scriptureFileExists = true ∧
      load_scriptures env.scriptureFileContent = .ok doc ∧
      buildTexts (pyItems doc) = .ok texts ∧
      embedLoop env.embed texts.length texts 0 = (embs, evs, some msg)) ∨
    (∃ doc texts embs evs e, env.scriptureFileExists = true ∧
      load_scriptures env.scriptureFileContent = .ok doc ∧
      buildTexts (pyItems doc) = .ok texts ∧
      embedLoop env.embed texts.length texts 0 = (embs, evs, none) ∧
      np_array embs = .error e) ∨
    (∃ doc texts embs evs arr metas, env.scriptureFileExists = true ∧
      load_scriptures env.scriptureFileContent = .ok doc ∧
      buildTexts (pyItems doc) = .ok texts ∧
      embedLoop env.embed texts.length texts 0 = (embs, evs, none) ∧
      np_array embs = .ok arr ∧
      buildMetadata (pyItems doc) = .ok metas) := by
  cases hex : env.scriptureFileExists with
  | false => exact Or.inl rfl
  | true =>
      cases hload : load_scriptures env.scriptureFileContent with
      | error e => exact Or.inr (Or.inl ⟨e, rfl, rfl⟩)
      | ok doc =>
          cases htexts : buildTexts (pyItems doc) with
          | error e => exact Or.inr (Or.inr (Or.inl ⟨doc, e, rfl, rfl, htexts⟩))
          | ok texts =>
              rcases hloop : embedLoop env.embed texts.length texts 0 with ⟨embs, evs, err⟩
              cases err with
              | some msg =>
                  exact Or.inr (Or.inr (Or.inr (Or.inl
                    ⟨doc, texts, embs, evs, msg, rfl, rfl, htexts, hloop⟩)))
              | none =>
                  cases harr : np_array embs with
                  | error e =>
                      exact Or.inr (Or.inr (Or.inr (Or.inr (Or.inl
                        ⟨doc, texts, embs, evs, e, rfl, rfl, htexts, hloop, harr⟩))))
                  | ok arr =>
                      obtain ⟨metas, hmeta⟩ := buildTexts_ok_buildMetadata _ texts htexts
                      exact Or.inr (Or.inr (Or.inr (Or.inr (Or.inr
                        ⟨doc, texts, embs, evs, arr, metas, rfl, rfl, htexts, hloop,
                         harr, hmeta⟩))))

/-- The two artifact paths differ. -/
theorem meta_beq_emb : (metadata_path == embeddings_path) = false := by decide

/-- If a run left a file at the metadata path, the corpus was decoded and the
file holds exactly the metadata array the decoded document determines: the
metadata artifact is a function of the corpus content alone. -/
theorem mainRun_meta_inv (env : Env) (fd : FileData)
    (h : List.lookup metadata_path (mainRun env).files = some fd) :
    ∃ doc metas, load_scriptures env.scriptureFileContent = .ok doc ∧
      buildMetadata (pyItems doc) = .ok metas ∧ fd = .jsonFile (.arr metas) := by
  rcases mainRun_cases env with hex | ⟨e, hex, hload⟩ | ⟨doc, e, hex, hload, htexts⟩ |
    ⟨doc, texts, embs, evs, msg, hex, hload, htexts, hloop⟩ |
    ⟨doc, texts, embs, evs, e, hex, hload, htexts, hloop, harr⟩ |
    ⟨doc, texts, embs, evs, arr, metas, hex, hload, htexts, hloop, harr, hmeta⟩
  · rw [mainRun_missing env hex] at h; simp at h
  · rw [mainRun_loadErr env e hex hload] at h; simp [crashedRun] at h
  · rw [mainRun_textsErr env doc e hex hload htexts] at h; simp [crashedRun] at h
  · rw [mainRun_loopErr env doc texts embs evs msg hex hload htexts hloop] at h
    simp [crashedRun] at h
  · rw [mainRun_arrErr env doc texts embs evs e hex hload htexts hloop harr] at h
    simp [crashedRun] at h
  · rw [mainRun_ok env doc texts embs evs arr metas hex hload htexts hloop harr hmeta] at h
    simp only [List.lookup, meta_beq_emb, Bool.false_eq_true, if_false, beq_self_eq_true,
      if_true, Option.some.injEq] at h
    exact ⟨doc, metas, hload, hmeta, h.symm⟩

/-- A run that ended in an uncaught exception created no directory and wrote
no file: every stage that can raise runs before the first write (the one
raise point after a write, the metadata comprehension, cannot fire once the
text comprehension has succeeded). -/
theorem mainRun_crash_clean (env : Env) (h : (mainRun env).crashed = true) :
    (mainRun env).dirsCreated = [] ∧ (mainRun env).files = [] := by
  rcases mainRun_cases env with hex | ⟨e, hex, hload⟩ | ⟨doc, e, hex, hload, htexts⟩ |
    ⟨doc, texts, embs, evs, msg, hex, hload, htexts, hloop⟩ |
    ⟨doc, texts, embs, evs, e, hex, hload, htexts, hloop, harr⟩ |
    ⟨doc, texts, embs, evs, arr, metas, hex, hload, htexts, hloop, harr, hmeta⟩
  · rw [mainRun_missing env hex] at h; simp at h
  · rw [mainRun_loadErr env e hex hload]; exact ⟨rfl, rfl⟩
  · rw [mainRun_textsErr env doc e hex hload htexts]; exact ⟨rfl, rfl⟩
  · rw [mainRun_loopErr env doc texts embs evs msg hex hload htexts hloop]
    exact ⟨rfl, rfl⟩
  · rw [mainRun_arrErr env doc texts embs evs e hex hload htexts hloop harr]
    exact ⟨rfl, rfl⟩
  · rw [mainRun_ok env doc texts embs evs arr metas hex hload htexts hloop harr hmeta] at h
    simp at h

/-- Extracting progress pairs from progress events is the identity. -/
theorem filterMap_progress_map (evs : List (Nat × Nat)) :
    List.filterMap
        (fun ev => match ev with | OutEvent.progress d t => some (d, t) | _ => none)
        (evs.map (fun p => OutEvent.progress p.1 p.2)) = evs := by
  induction evs with
  | nil => rfl
  | cons p ps ih => simp [ih]

/-- Progress events carry no size report. -/
theorem filterMap_saved_map (evs : List (Nat × Nat)) :
    List.filterMap
        (fun ev => match ev with | OutEvent.saved p m => some (p, m) | _ => none)
        (evs.map (fun p => OutEvent.progress p.1 p.2)) = [] := by
  induction evs with
  | nil => rfl
  | cons p ps ih => simp [ih]

/-- Progress events carry no total report. -/
theorem filterMap_done_map (evs : List (Nat × Nat)) :
    List.filterMap
        (fun ev => match ev with | OutEvent.doneTotal m => some m | _ => none)
        (evs.map (fun p => OutEvent.progress p.1 p.2)) = [] := by
  induction evs with
  | nil => rfl
  | cons p ps ih => simp [ih]

/-! ## Decoder lemmas for the loader claim -/

/-- A character that dumps as itself is neither the quote nor the backslash. -/
theorem jesc_plain_ne {c : Char} (h : jesc c = [c]) : ¬c = '"' ∧ ¬c = '\\' := by
  constructor <;> intro he <;> subst he <;> simp [jesc] at h

/-- Dumping a string that needs no escapes emits its characters unchanged. -/
theorem flatMap_jesc_plain : ∀ s : List Char, (∀ c ∈ s, jesc c = [c]) →
    s.flatMap jesc = s := by
  intro s
  induction s with
  | nil => intro _; rfl
  | cons c cs ih =>
      intro h
      have hc := h c (List.mem_cons_self c cs)
      simp only [List.flatMap_cons, hc, List.singleton_append, List.cons.injEq]
      exact ⟨trivial, ih fun d hd => h d (List.mem_cons_of_mem c hd)⟩

/-- A string body opening on its closing quote decodes to the empty string. -/
theorem strBody_quote (cs : List Char) : strBody ('"' :: cs) = .ok ([], cs) := by
  rw [strBody.eq_def]
  simp

/-- A plain character at the head of a string body is taken literally. -/
theorem strBody_plainChar (c : Char) (cs : List Char) (h1 : ¬c = '"') (h2 : ¬c = '\\') :
    strBody (c :: cs) = (strBody cs).map (fun p => (c :: p.1, p.2)) := by
  rw [strBody.eq_def]
  simp [h1, h2]

/-- Decoding an escape-free string body stops exactly at the closing quote. -/
theorem strBody_plain (s : List Char) (h : ∀ c ∈ s, jesc c = [c]) :
    ∀ rest, strBody (s ++ '"' :: rest) = .ok (s, rest) := by
  induction s with
  | nil => intro rest; exact strBody_quote rest
  | cons c cs ih =>
      intro rest
      obtain ⟨h1, h2⟩ := jesc_plain_ne (h c (List.mem_cons_self c cs))
      rw [List.cons_append, strBody_plainChar c _ h1 h2,
        ih (fun d hd => h d (List.mem_cons_of_mem c hd)) rest]
      rfl

/-- The dump of an escape-free string is the string between plain quotes. -/
theorem quoteStr_plain (s : String) (h : plainStr s) :
    quoteStr s = '"' :: (s.toList ++ ['"']) := by
  simp only [quoteStr, flatMap_jesc_plain s.toList h]

/-- Rebuilding a string from its characters is the identity. -/
theorem string_mk_toList (s : String) : String.mk s.toList = s := rfl

/-- A leading space is consumed before a value. -/
theorem pVal_space : ∀ (fuel : Nat) (cs : List Char),
    pVal fuel (' ' :: cs) = pVal fuel cs
  | 0, _ => rfl
  | fuel + 1, cs => by
      simp only [pVal]
      rw [show dropSpace (' ' :: cs) = dropSpace cs from by
        simp [dropSpace, isJsonSpace]]

/-- A leading space is consumed before an array element. -/
theorem pItems_space (fuel : Nat) (cs : List Char) :
    pItems (fuel + 1) (' ' :: cs) = pItems (fuel + 1) cs := by
  simp only [pItems, pVal_space]

/-- A leading space is consumed before an object member. -/
theorem pFields_space (fuel : Nat) (cs : List Char) :
    pFields (fuel + 1) (' ' :: cs) = pFields (fuel + 1) cs := by
  simp only [pFields]
  rw [show dropSpace (' ' :: cs) = dropSpace cs from by
    simp [dropSpace, isJsonSpace]]

/-- Decoding the dump of a verse record with escape-free fields recovers it,
consuming exactly its text, at any fuel of the form g + 4. -/
theorem pVal_verse (g : Nat) (t x : String) (ht : plainStr t) (hx : plainStr x)
    (rest : List Char) :
    pVal (g + 4) (dumpJson (verseJson (t, x)) ++ rest) = .ok (verseJson (t, x), rest) := by
  have hft : (t.data.flatMap jesc) = t.data := flatMap_jesc_plain t.toList ht
  have hfx : (x.data.flatMap jesc) = x.data := flatMap_jesc_plain x.toList hx
  have hbt : ∀ r, strBody (t.data ++ '"' :: r) = .ok (t.data, r) := strBody_plain t.toList ht
  have hbx : ∀ r, strBody (x.data ++ '"' :: r) = .ok (x.data, r) := strBody_plain x.toList hx
  simp [dumpJson, verseJson, dumpFields, quoteStr, hft, hfx, jesc,
    pVal.eq_def, pItems.eq_def, pFields.eq_def, dropSpace, isJsonSpace,
    strBody_quote, hbt, hbx, strBody_plainChar, Except.map, Bind.bind, Except.bind]

/-- Decoding the dumped elements of a non-empty record array recovers them in
order, consuming the closing bracket. -/
theorem pItems_verses : ∀ (records : List (String × String)),
    (∀ r ∈ records, plainStr r.1 ∧ plainStr r.2) → records ≠ [] →
    ∀ (g : Nat) (rest : List Char),
      pItems (g + 5 * records.length) (dumpItems (records.map verseJson) ++ ']' :: rest) =
        .ok (records.map verseJson, rest) := by
  intro records
  induction records with
  | nil => intro _ hne; exact absurd rfl hne
  | cons r rs ih =>
      intro hplain _ g rest
      obtain ⟨t, x⟩ := r
      obtain ⟨ht, hx⟩ := hplain (t, x) (List.mem_cons_self _ rs)
      cases rs with
      | nil =>
          have hf : g + 5 * ([(t, x)].length) = (g + 4) + 1 := by simp
          rw [hf, pItems.eq_def]
          simp only [List.map_cons, List.map_nil, dumpItems]
          rw [pVal_verse g t x ht hx (']' :: rest)]
          simp [dropSpace, isJsonSpace, Except.map, Bind.bind, Except.bind]
      | cons s rs' =>
          have hf : g + 5 * (((t, x) :: s :: rs').length) =
              ((g + 5 * ((s :: rs').length)) + 4) + 1 := by
            simp only [List.length_cons]
            omega
          rw [hf, pItems.eq_def]
          simp only [List.map_cons, dumpItems, List.append_assoc, List.cons_append]
          rw [pVal_verse (g + 5 * ((s :: rs').length)) t x ht hx]
          have ih' := ih (fun q hq => hplain q (List.mem_cons_of_mem _ hq))
            (List.cons_ne_nil s rs') (g + 4) rest
          simp only [List.map_cons] at ih'
          rw [show (g + 5 * ((s :: rs').length)) + 4 = (g + 4) + 5 * ((s :: rs').length) from by
            omega]
          simp [Bind.bind, Except.bind, dropSpace, isJsonSpace]
          simp only [List.length_cons] at ih'
          rw [show g + 4 + 5 * (rs'.length + 1) = (g + 4 + 5 * rs'.length + 4) + 1 from by ring]
            at ih' ⊢
          rw [pItems_space, ih']
          simp [Except.map]

/-- Decoding the dump of a whole record array recovers it, consuming exactly
its text. -/
theorem pVal_corpus (records : List (String × String))
    (hplain : ∀ r ∈ records, plainStr r.1 ∧ plainStr r.2) (g : Nat) (rest : List Char) :
    pVal (g + 5 * records.length + 1) (dumpJson (corpusJson records) ++ rest) =
      .ok (corpusJson records, rest) := by
  cases records with
  | nil =>
      rw [pVal.eq_def]
      simp [corpusJson, dumpJson, dumpItems, dropSpace, isJsonSpace]
  | cons r rs =>
      obtain ⟨t, x⟩ := r
      have hhead : ∃ tail, dumpItems (((t, x) :: rs).map verseJson) = '\x7b' :: tail := by
        cases rs with
        | nil =>
            refine ⟨dumpFields [("verse_title", .str t), ("scripture_text", .str x)] ++
              ['\x7d'], ?_⟩
            simp [dumpItems, dumpJson, verseJson]
        | cons s rs' =>
            refine ⟨(dumpFields [("verse_title", .str t), ("scripture_text", .str x)] ++
              ['\x7d']) ++ ',' :: ' ' :: dumpItems ((s :: rs').map verseJson), ?_⟩
            simp [dumpItems, dumpJson, verseJson]
      obtain ⟨tail, htail⟩ := hhead
      have harg : dumpJson (corpusJson ((t, x) :: rs)) ++ rest =
          '[' :: (dumpItems (((t, x) :: rs).map verseJson) ++ ']' :: rest) := by
        simp only [corpusJson, dumpJson, List.cons_append, List.append_assoc,
          List.cons.injEq, true_and]
        rfl
      rw [harg, pVal.eq_def]
      simp only [htail, List.cons_append]
      simp [dropSpace, isJsonSpace]
      have hp := pItems_verses ((t, x) :: rs) hplain (List.cons_ne_nil _ _) g rest
      simp only [List.length_cons] at hp
      rw [show '\x7b' :: (tail ++ ']' :: rest) = ('\x7b' :: tail) ++ ']' :: rest from rfl,
        ← htail, hp]
      simp [Except.map, corpusJson]

/-- A dumped verse record spans at least five characters. -/
theorem dumpVerse_len (r : String × String) : 5 ≤ (dumpJson (verseJson r)).length := by
  obtain ⟨t, x⟩ := r
  simp [dumpJson, verseJson, dumpFields, quoteStr, jesc]

/-- A dumped record list spans at least five characters per record. -/
theorem dumpItems_len (records : List (String × String)) :
    5 * records.length ≤ (dumpItems (records.map verseJson)).length := by
  induction records with
  | nil => simp [dumpItems]
  | cons r rs ih =>
      cases rs with
      | nil => simpa [dumpItems] using dumpVerse_len r
      | cons s rs' =>
          have h1 := dumpVerse_len r
          simp only [List.map_cons, dumpItems, List.length_append, List.length_cons,
            List.length_map] at ih ⊢
          omega

/-- Round trip through the decoder: `json.loads` of `json.dumps` of an
array-form corpus of escape-free records is the corpus itself (the default
fuel, one more than the input length, always suffices on these inputs). -/
theorem json_loads_corpus (records : List (String × String))
    (hplain : ∀ r ∈ records, plainStr r.1 ∧ plainStr r.2) :
    json_loads (dumps (corpusJson records)) = .ok (corpusJson records) := by
  have hlen : 5 * records.length ≤ (dumpJson (corpusJson records)).length := by
    cases records with
    | nil => simp
    | cons r rs =>
        have := dumpItems_len (r :: rs)
        simp only [corpusJson, dumpJson, List.length_cons, List.length_append,
          List.length_map] at this ⊢
        omega
  obtain ⟨g, hg⟩ : ∃ g, (dumpJson (corpusJson records)).length + 1 =
      g + 5 * records.length + 1 :=
    ⟨(dumpJson (corpusJson records)).length - 5 * records.length, by omega⟩
  have htl : (String.mk (dumpJson (corpusJson records))).toList =
      dumpJson (corpusJson records) := rfl
  simp only [json_loads, dumps, htl, hg]
  rw [show dumpJson (corpusJson records) =
    dumpJson (corpusJson records) ++ ([] : List Char) from by simp]
  rw [pVal_corpus records hplain g []]
  simp [Bind.bind, Except.bind, dropSpace]

/-- A newline-delimited corpus with at least one record starts with the brace
that opens its first object. -/
theorem ndjson_head (b : String × String) (rs : List (String × String)) :
    ∃ tail, ndjsonL (b :: rs) = '\x7b' :: tail := by
  obtain ⟨t, x⟩ := b
  cases rs with
  | nil =>
      refine ⟨dumpFields [("verse_title", .str t), ("scripture_text", .str x)] ++
        ['\x7d'], ?_⟩
      simp [ndjsonL, dumpJson, verseJson]
  | cons c cs =>
      refine ⟨(dumpFields [("verse_title", .str t), ("scripture_text", .str x)] ++
        ['\x7d']) ++ '\n' :: ndjsonL (c :: cs), ?_⟩
      simp [ndjsonL, dumpJson, verseJson]

/-- On a newline-delimited file of two or more records, `json.loads` decodes
the first record, finds the second where only whitespace may stand, and
raises `Extra data`. -/
theorem json_loads_ndjson (t x : String) (b : String × String)
    (rs : List (String × String)) (ht : plainStr t) (hx : plainStr x) :
    json_loads (String.mk (ndjsonL ((t, x) :: b :: rs))) = .error "Extra data" := by
  have hnd : ndjsonL ((t, x) :: b :: rs) =
      dumpJson (verseJson (t, x)) ++ '\n' :: ndjsonL (b :: rs) := by
    simp [ndjsonL]
  have hlen : 3 ≤ (ndjsonL ((t, x) :: b :: rs)).length := by
    have h5 := dumpVerse_len (t, x)
    rw [hnd]
    simp only [List.length_append, List.length_cons]
    omega
  obtain ⟨g, hg⟩ : ∃ g, (ndjsonL ((t, x) :: b :: rs)).length + 1 = g + 4 :=
    ⟨(ndjsonL ((t, x) :: b :: rs)).length - 3, by omega⟩
  have htl : (String.mk (ndjsonL ((t, x) :: b :: rs))).toList =
      ndjsonL ((t, x) :: b :: rs) := rfl
  obtain ⟨tail, htail⟩ := ndjson_head b rs
  simp only [json_loads, htl, hg]
  rw [hnd, pVal_verse g t x ht hx ('\n' :: ndjsonL (b :: rs))]
  simp [Bind.bind, Except.bind, dropSpace, isJsonSpace, htail]

/-! ## The claims -/

/-- C1: for every input sequence of N verse records, the metadata artifact
contains exactly N entries, and entry i holds exactly the `verse_title` of
record i — the metadata list is index-aligned with the input record order. -/
theorem C1_metadata_index_aligned (env : Env) (scriptures metas : List Json)
    (hload : load_scriptures env.scriptureFileContent = .ok (.arr scriptures))
    (hfile : List.lookup metadata_path (mainRun env).files =
      some (.jsonFile (.arr metas))) :
    metas.length = scriptures.length ∧
    ∀ i, i < scriptures.length →
      ∃ fields v, scriptures[i]? = some (Json.obj fields) ∧
        dictGet fields "verse_title" = some v ∧
        metas[i]? = some (Json.obj [("verse_title", v)]) := by
  obtain ⟨doc, metas', hload', hmeta', hfd⟩ := mainRun_meta_inv env _ hfile
  rw [hload] at hload'
  injection hload' with hdoc
  subst hdoc
  injection hfd with hfd'
  injection hfd' with hfd''
  subst hfd''
  simp only [pyItems] at hmeta'
  refine ⟨?_, ?_⟩
  · have := exceptMapM_ok_length metaOf scriptures metas hmeta'
    simpa using this
  · intro i hi
    exact buildMetadata_align scriptures metas hmeta' i hi

/-- C1, evaluated: the one-verse corpus yields a one-entry metadata artifact
aligned with the input. -/
theorem C1_metadata_index_aligned_witness :
    [Json.obj [("verse_title", Json.str "Genesis 1:1")]].length =
      [verseJson ("Genesis 1:1", "In the beginning")].length ∧
    ∀ i, i < [verseJson ("Genesis 1:1", "In the beginning")].length →
      ∃ fields v,
        [verseJson ("Genesis 1:1", "In the beginning")][i]? = some (Json.obj fields) ∧
        dictGet fields "verse_title" = some v ∧
        [Json.obj [("verse_title", Json.str "Genesis 1:1")]][i]? =
          some (Json.obj [("verse_title", v)]) :=
  C1_metadata_index_aligned envOneVerse
    [verseJson ("Genesis 1:1", "In the beginning")]
    [Json.obj [("verse_title", Json.str "Genesis 1:1")]]
    (by rfl) (by rfl)

/-- C2: the text builder is a pure function (a Lean function here, with no
effects by construction) mapping a record holding string fields
`verse_title` and `scripture_text` to `title ++ ": " ++ text`. -/
theorem C2_get_verse_text_concat (fields : List (String × Json)) (t x : String)
    (ht : dictGet fields "verse_title" = some (.str t))
    (hx : dictGet fields "scripture_text" = some (.str x)) :
    get_verse_text (.obj fields) = .ok (t ++ ": " ++ x) := by
  simp [get_verse_text, ht, hx, pyStr]

/-- C2, evaluated on the spec's own example record. -/
theorem C2_get_verse_text_concat_witness :
    get_verse_text (.obj [("verse_title", .str "Genesis 1:1"),
                          ("scripture_text", .str "In the beginning...")]) =
      .ok ("Genesis 1:1" ++ ": " ++ "In the beginning...") :=
  C2_get_verse_text_concat _ "Genesis 1:1" "In the beginning..." (by rfl) (by rfl)

/-- C3: with the corpus file absent, the run prints the error message, exits
with code 1, creates no directory and writes no file. -/
theorem C3_missing_file_exit (env : Env) (h : env.scriptureFileExists = false) :
    (mainRun env).exitCode = 1 ∧ (mainRun env).stdout = outMissing ∧
    (mainRun env).dirsCreated = [] ∧ (mainRun env).files = [] := by
  rw [mainRun_missing env h]
  exact ⟨rfl, rfl, rfl, rfl⟩

/-- C3, evaluated at a world without the corpus file. -/
theorem C3_missing_file_exit_witness :
    (mainRun envMissing).exitCode = 1 ∧ (mainRun envMissing).stdout = outMissing ∧
    (mainRun envMissing).dirsCreated = [] ∧ (mainRun envMissing).files = [] :=
  C3_missing_file_exit envMissing (by rfl)

/-- C4 as stated is false at N = 0: the code calls
`np.array(embeddings_list, dtype=np.float32)` on the empty list, whose shape
is `(0,)`, not `(0, 384)` — here evaluated on the empty corpus, a valid
input whose run succeeds yet whose saved array is one-dimensional. -/
theorem C4_empty_shape_cex :
    (mainRun envEmptyCorpus).exitCode = 0 ∧
    List.lookup embeddings_path (mainRun envEmptyCorpus).files =
      some (.npy ⟨[0], "float32", []⟩) ∧
    (NpyArray.mk [0] "float32" []).shape ≠ [0, DIMENSION] :=
  ⟨by rfl, by rfl, by decide⟩

/-- C4, amended: for every valid input file with N ≥ 1 records, when the
embedder returns one 384-component vector per input string, the saved
embedding artifact is a shape (N, 384) float32 array and the metadata file
has exactly N entries (for N = 0 the array's shape is `(0,)` instead). -/
theorem C4_shape_and_counts (env : Env) (scriptures : List Json)
    (texts : List String) (embs : List (List ℚ)) (evs : List (Nat × Nat))
    (arr : NpyArray) (metas : List Json)
    (hex : env.scriptureFileExists = true)
    (hload : load_scriptures env.scriptureFileContent = .ok (.arr scriptures))
    (htexts : buildTexts scriptures = .ok texts)
    (hloop : embedLoop env.embed texts.length texts 0 = (embs, evs, none))
    (h384 : ∀ v ∈ embs, v.length = DIMENSION)
    (hne : scriptures ≠ [])
    (harr : np_array embs = .ok arr)
    (hmeta : buildMetadata scriptures = .ok metas) :
    arr.shape = [scriptures.length, DIMENSION] ∧ arr.dtype = "float32" ∧
    List.lookup embeddings_path (mainRun env).files = some (.npy arr) ∧
    List.lookup metadata_path (mainRun env).files =
      some (.jsonFile (.arr metas)) ∧
    metas.length = scriptures.length := by
  have hpy : pyItems (Json.arr scriptures) = scriptures := rfl
  have hlen1 : texts.length = scriptures.length :=
    exceptMapM_ok_length get_verse_text scriptures texts htexts
  have hlen2 : embs.length = texts.length :=
    embedLoop_ok_length env.embed texts.length texts 0 embs evs hloop
  have hshape : arr = ⟨[scriptures.length, DIMENSION], "float32", embs⟩ := by
    cases embs with
    | nil =>
        exfalso
        apply hne
        have : scriptures.length = 0 := by
          rw [← hlen1, ← hlen2]
          rfl
        exact List.length_eq_zero.mp this
    | cons e rest =>
        have hall : rest.all (fun v => v.length = e.length) = true := by
          rw [List.all_eq_true]
          intro v hv
          have h1 := h384 v (List.mem_cons_of_mem e hv)
          have h2 := h384 e (List.mem_cons_self e rest)
          simp [h1, h2]
        simp only [np_array, hall, if_true] at harr
        injection harr with harr'
        rw [← harr']
        have h2 := h384 e (List.mem_cons_self e rest)
        have hlen3 : (e :: rest).length = scriptures.length := hlen2.trans hlen1
        simp [hlen3, h2]
  have hrun := mainRun_ok env (Json.arr scriptures) texts embs evs arr metas hex hload
    (by rw [hpy]; exact htexts) hloop harr (by rw [hpy]; exact hmeta)
  refine ⟨by rw [hshape], by rw [hshape], ?_, ?_, ?_⟩
  · rw [hrun]
    simp only [List.lookup, beq_self_eq_true, if_true]
  · rw [hrun]
    simp only [List.lookup, meta_beq_emb, Bool.false_eq_true, if_false,
      beq_self_eq_true, if_true]
  · exact exceptMapM_ok_length metaOf scriptures metas hmeta

/-- C4 amended, evaluated on the one-verse corpus. -/
theorem C4_shape_and_counts_witness :
    (NpyArray.mk [1, DIMENSION] "float32" [List.replicate 384 0]).shape =
      [[verseJson ("Genesis 1:1", "In the beginning")].length, DIMENSION] ∧
    (NpyArray.mk [1, DIMENSION] "float32" [List.replicate 384 0]).dtype = "float32" ∧
    List.lookup embeddings_path (mainRun envOneVerse).files =
      some (.npy ⟨[1, DIMENSION], "float32", [List.replicate 384 0]⟩) ∧
    List.lookup metadata_path (mainRun envOneVerse).files =
      some (.jsonFile (.arr [Json.obj [("verse_title", Json.str "Genesis 1:1")]])) ∧
    [Json.obj [("verse_title", Json.str "Genesis 1:1")]].length =
      [verseJson ("Genesis 1:1", "In the beginning")].length :=
  C4_shape_and_counts envOneVerse
    [verseJson ("Genesis 1:1", "In the beginning")]
    ["Genesis 1:1: In the beginning"]
    [List.replicate 384 0] [(1, 1)]
    ⟨[1, DIMENSION], "float32", [List.replicate 384 0]⟩
    [Json.obj [("verse_title", Json.str "Genesis 1:1")]]
    (by rfl) (by rfl) (by rfl) (by rfl)
    (by intro v hv; simp at hv; simp [hv, DIMENSION])
    (by simp) (by rfl) (by rfl)

/-- C5: on the empty input array the program runs to completion (exit 0, no
crash), the saved embedding array has zero rows and the metadata array is
`[]`. -/
theorem C5_empty_corpus_ok :
    (mainRun envEmptyCorpus).exitCode = 0 ∧
    (mainRun envEmptyCorpus).crashed = false ∧
    List.lookup embeddings_path (mainRun envEmptyCorpus).files =
      some (.npy ⟨[0], "float32", []⟩) ∧
    List.lookup metadata_path (mainRun envEmptyCorpus).files =
      some (.jsonFile (.arr [])) :=
  ⟨by rfl, by rfl, by rfl, by rfl⟩

/-- C6 as stated is false for newline-delimited input: `json.load` decodes
exactly one JSON document, so a two-line newline-delimited corpus raises
`JSONDecodeError: Extra data` instead of parsing — evaluated here on a
concrete two-record file. -/
theorem C6_ndjson_cex : load_scriptures ndjsonTwo = .error "Extra data" := by rfl

/-- C6, amended: the Loader parses the corpus file as a single JSON
document.  An array-form JSON file parses successfully, returning the
ordered sequence of verse records exactly as stored; a newline-delimited
JSON file of two or more records fails with a parse error (`Extra data`)
rather than being parsed.  (Records quantified over escape-free field
strings, the subset the dump model covers.) -/
theorem C6_loader_single_document (records : List (String × String))
    (hplain : ∀ r ∈ records, plainStr r.1 ∧ plainStr r.2) :
    load_scriptures (dumps (corpusJson records)) = .ok (corpusJson records) ∧
    (2 ≤ records.length →
      load_scriptures (String.mk (ndjsonL records)) = .error "Extra data") := by
  constructor
  · exact json_loads_corpus records hplain
  · intro h2
    match records, h2 with
    | (t, x) :: b :: rs, _ =>
        obtain ⟨ht, hx⟩ := hplain (t, x) (List.mem_cons_self _ _)
        exact json_loads_ndjson t x b rs ht hx

/-- C6 amended, evaluated on a two-record corpus in both layouts. -/
theorem C6_loader_single_document_witness :
    load_scriptures (dumps (corpusJson
        [("Genesis 1:1", "In the beginning"), ("Genesis 1:2", "And the earth")])) =
      .ok (corpusJson
        [("Genesis 1:1", "In the beginning"), ("Genesis 1:2", "And the earth")]) ∧
    (2 ≤ ([("Genesis 1:1", "In the beginning"),
           ("Genesis 1:2", "And the earth")] : List (String × String)).length →
      load_scriptures (String.mk (ndjsonL
        [("Genesis 1:1", "In the beginning"), ("Genesis 1:2", "And the earth")])) =
        .error "Extra data") :=
  C6_loader_single_document
    [("Genesis 1:1", "In the beginning"), ("Genesis 1:2", "And the earth")]
    (by decide)

/-- C7: during a successful embedding of N inputs, progress is emitted
exactly after every 1000th item and after the final item, in order, and at
no other point. -/
theorem C7_progress_milestones (env : Env) (doc : Json) (texts : List String)
    (embs : List (List ℚ)) (evs : List (Nat × Nat)) (arr : NpyArray) (metas : List Json)
    (hex : env.scriptureFileExists = true)
    (hload : load_scriptures env.scriptureFileContent = .ok doc)
    (htexts : buildTexts (pyItems doc) = .ok texts)
    (hloop : embedLoop env.embed texts.length texts 0 = (embs, evs, none))
    (harr : np_array embs = .ok arr)
    (hmeta : buildMetadata (pyItems doc) = .ok metas) :
    progressReports (mainRun env) =
      (milestones texts.length).map (fun k => (k, texts.length)) ∧
    ∀ k, k ∈ milestones texts.length ↔
      (1 ≤ k ∧ k ≤ texts.length ∧ (k % 1000 = 0 ∨ k = texts.length)) := by
  constructor
  · rw [mainRun_ok env doc texts embs evs arr metas hex hload htexts hloop harr hmeta]
    have hevs := embedLoop_events env.embed texts.length texts 0 embs evs hloop
    simp only [progressReports, okStdout, List.append_assoc, List.filterMap_append,
      outGen, outLoaded, outLoading, List.filterMap_cons, List.filterMap_nil,
      filterMap_progress_map]
    rw [hevs]
    simp [milestones]
  · intro k
    simp only [milestones, List.mem_filter, List.mem_map, List.mem_range]
    constructor
    · rintro ⟨⟨j, hj, rfl⟩, hcond⟩
      simp only [Bool.or_eq_true, beq_iff_eq, Nat.beq_eq] at hcond
      exact ⟨by omega, by omega, hcond⟩
    · rintro ⟨h1, h2, h3⟩
      refine ⟨⟨k - 1, by omega, by omega⟩, ?_⟩
      simp only [Bool.or_eq_true, beq_iff_eq, Nat.beq_eq]
      exact h3

/-- C7, evaluated on the one-verse corpus: one progress event, after item 1
of 1. -/
theorem C7_progress_milestones_witness :
    progressReports (mainRun envOneVerse) =
      (milestones ["Genesis 1:1: In the beginning"].length).map
        (fun k => (k, ["Genesis 1:1: In the beginning"].length)) ∧
    ∀ k, k ∈ milestones ["Genesis 1:1: In the beginning"].length ↔
      (1 ≤ k ∧ k ≤ ["Genesis 1:1: In the beginning"].length ∧
        (k % 1000 = 0 ∨ k = ["Genesis 1:1: In the beginning"].length)) :=
  C7_progress_milestones envOneVerse oneRecordDoc
    ["Genesis 1:1: In the beginning"]
    [List.replicate 384 0] [(1, 1)]
    ⟨[1, 384], "float32", [List.replicate 384 0]⟩
    [Json.obj [("verse_title", Json.str "Genesis 1:1")]]
    (by rfl) (by rfl) (by rfl) (by rfl) (by rfl) (by rfl)

/-- C8: after writing both artifacts, the run reports the size of each (in
megabytes, the byte size divided by 2^20, held exactly) and then their sum,
and the reported sum is the total byte size in the same unit. -/
theorem C8_size_reports (env : Env) (doc : Json) (texts : List String)
    (embs : List (List ℚ)) (evs : List (Nat × Nat)) (arr : NpyArray) (metas : List Json)
    (hex : env.scriptureFileExists = true)
    (hload : load_scriptures env.scriptureFileContent = .ok doc)
    (htexts : buildTexts (pyItems doc) = .ok texts)
    (hloop : embedLoop env.embed texts.length texts 0 = (embs, evs, none))
    (harr : np_array embs = .ok arr)
    (hmeta : buildMetadata (pyItems doc) = .ok metas) :
    sizeReports (mainRun env) =
      [(embeddings_path, toMB (npySize arr)),
       (metadata_path, toMB ((dumps (Json.arr metas)).utf8ByteSize))] ∧
    totalReports (mainRun env) =
      [toMB (npySize arr) + toMB ((dumps (Json.arr metas)).utf8ByteSize)] ∧
    toMB (npySize arr) + toMB ((dumps (Json.arr metas)).utf8ByteSize) =
      toMB (npySize arr + (dumps (Json.arr metas)).utf8ByteSize) := by
  rw [mainRun_ok env doc texts embs evs arr metas hex hload htexts hloop harr hmeta]
  refine ⟨?_, ?_, ?_⟩
  · simp only [sizeReports, okStdout, List.append_assoc, List.filterMap_append,
      outGen, outLoaded, outLoading, List.filterMap_cons, List.filterMap_nil,
      filterMap_saved_map]
    rfl
  · simp only [totalReports, okStdout, List.append_assoc, List.filterMap_append,
      outGen, outLoaded, outLoading, List.filterMap_cons, List.filterMap_nil,
      filterMap_done_map]
    rfl
  · simp only [toMB, Nat.cast_add]
    rw [div_add_div_same]

/-- C8, evaluated on the one-verse corpus. -/
theorem C8_size_reports_witness :
    sizeReports (mainRun envOneVerse) =
      [(embeddings_path, toMB (npySize ⟨[1, 384], "float32", [List.replicate 384 0]⟩)),
       (metadata_path,
        toMB ((dumps (Json.arr [Json.obj [("verse_title", Json.str "Genesis 1:1")]])).utf8ByteSize))] ∧
    totalReports (mainRun envOneVerse) =
      [toMB (npySize ⟨[1, 384], "float32", [List.replicate 384 0]⟩) +
       toMB ((dumps (Json.arr [Json.obj [("verse_title", Json.str "Genesis 1:1")]])).utf8ByteSize)] ∧
    toMB (npySize ⟨[1, 384], "float32", [List.replicate 384 0]⟩) +
      toMB ((dumps (Json.arr [Json.obj [("verse_title", Json.str "Genesis 1:1")]])).utf8ByteSize) =
      toMB (npySize ⟨[1, 384], "float32", [List.replicate 384 0]⟩ +
        (dumps (Json.arr [Json.obj [("verse_title", Json.str "Genesis 1:1")]])).utf8ByteSize) :=
  C8_size_reports envOneVerse oneRecordDoc
    ["Genesis 1:1: In the beginning"]
    [List.replicate 384 0] [(1, 1)]
    ⟨[1, 384], "float32", [List.replicate 384 0]⟩
    [Json.obj [("verse_title", Json.str "Genesis 1:1")]]
    (by rfl) (by rfl) (by rfl) (by rfl) (by rfl) (by rfl)

/-- C9: the metadata artifact is byte-identical across runs on identical
corpus content — it does not depend on the embedding model at all (the two
runs here may hold different embedders), and its bytes are a function of the
artifact value. -/
theorem C9_metadata_deterministic (env1 env2 : Env) (d1 d2 : FileData)
    (hc : env1.scriptureFileContent = env2.scriptureFileContent)
    (h1 : List.lookup metadata_path (mainRun env1).files = some d1)
    (h2 : List.lookup metadata_path (mainRun env2).files = some d2) :
    d1 = d2 ∧ metadataBytes d1 = metadataBytes d2 := by
  obtain ⟨doc1, metas1, hl1, hm1, hfd1⟩ := mainRun_meta_inv env1 d1 h1
  obtain ⟨doc2, metas2, hl2, hm2, hfd2⟩ := mainRun_meta_inv env2 d2 h2
  rw [hc, hl2] at hl1
  injection hl1 with hdoc
  subst hdoc
  rw [hm2] at hm1
  injection hm1 with hmetas
  subst hmetas
  rw [hfd1, hfd2]
  exact ⟨rfl, rfl⟩

/-- C9, evaluated: the same one-verse corpus under two different embedders
yields the same metadata artifact. -/
theorem C9_metadata_deterministic_witness :
    FileData.jsonFile (.arr [Json.obj [("verse_title", Json.str "Genesis 1:1")]]) =
      FileData.jsonFile (.arr [Json.obj [("verse_title", Json.str "Genesis 1:1")]]) ∧
    metadataBytes (FileData.jsonFile
        (.arr [Json.obj [("verse_title", Json.str "Genesis 1:1")]])) =
      metadataBytes (FileData.jsonFile
        (.arr [Json.obj [("verse_title", Json.str "Genesis 1:1")]])) :=
  C9_metadata_deterministic envOneVerse envOneVerseAlt
    (FileData.jsonFile (.arr [Json.obj [("verse_title", Json.str "Genesis 1:1")]]))
    (FileData.jsonFile (.arr [Json.obj [("verse_title", Json.str "Genesis 1:1")]]))
    (by rfl) (by rfl) (by rfl)

/-- C10: a run that fails — during loading, text building or embedding, or
anywhere else an exception can surface — creates no directory and writes no
file: both artifacts and the output directory appear only after the embed
loop over all texts has finished. -/
theorem C10_no_partial_output (env : Env) (h : (mainRun env).crashed = true) :
    (mainRun env).dirsCreated = [] ∧ (mainRun env).files = [] :=
  mainRun_crash_clean env h

/-- C10, evaluated at a corpus whose record is not an object, so text
building raises before anything is written. -/
theorem C10_no_partial_output_witness :
    (mainRun envBadRecord).crashed = true ∧
    (mainRun envBadRecord).dirsCreated = [] ∧ (mainRun envBadRecord).files = [] :=
  ⟨by rfl, C10_no_partial_output envBadRecord (by rfl)⟩

end Escrituras
